import Mathlib

/-!
Verification of the context-menu-manager tree-synchronization core
(`src/main.go`) against its natural-language specification.

Modelling conventions:
* Go strings are modelled as `List Char` (`Str`); `str` converts a Lean
  string literal.
* The Windows registry (rooted at `HKEY_CURRENT_USER`) is modelled as a
  finite tree `RegNode` of named scalar values and named children; a key
  handle is identified with the absolute path of the key it designates.
* Adapter failures other than "not found" (permission errors etc.) are
  injected through two lists of locked paths: `lo` makes `OpenKey` /
  `CreateKey` fail on that path with an access error, `ld` makes
  `DeleteKey` fail on that path.  The single-writer model has no races,
  so "not found" arises exactly where a key genuinely does not exist.
* Filesystem probing (`findManifest`, `findNircmd`) is external I/O; its
  result is passed in as a parameter (`nircmd : Option Str` is the
  located elevation-helper path, `none` when the helper cannot be
  located).  `log.Fatal` inside `ContextMenu.CommandString` aborts the
  process; the embedding models that abort as an error outcome
  (`Except.error`), which likewise terminates the installation without
  ever producing a command string.
* Go map iteration order is unspecified; the model fixes the manifest
  `items` maps as association lists iterated in list order, and models
  registry children as an association list in creation order (the real
  registry does not expose a semantically meaningful child order).
-/

abbrev Str : Type := List Char

def str (s : String) : Str := s.data

/-- Model of `quoteWindowsPath` (main.go:284-286): wrap in double quotes,
no escaping. -/
def quoteWindowsPath (path : Str) : Str := str "\"" ++ path ++ str "\""

/-- Worker for `replaceAll`, structurally recursive on a fuel bound so
that the kernel can evaluate it; each step consumes at least one
character of `s`, so any `fuel ≥ s.length` yields the fixpoint. -/
def replaceAllAux (pat rep : Str) : Nat → Str → Str
  | _, [] => []
  | 0, s => s
  | fuel + 1, c :: rest =>
    if pat ≠ [] ∧ pat.isPrefixOf (c :: rest) then
      rep ++ replaceAllAux pat rep fuel (List.drop pat.length (c :: rest))
    else
      c :: replaceAllAux pat rep fuel rest

/-- Model of Go `strings.ReplaceAll s pat rep`: replace every
non-overlapping occurrence of `pat` in `s` by `rep`, scanning left to
right, without rescanning the replacement text.  (Only used with the
non-empty pattern `${manifestFolder}`; for `pat = []` this returns `s`,
an edge case the program never exercises.) -/
def replaceAll (s pat rep : Str) : Str := replaceAllAux pat rep s.length s

/-- Model of Go `strings.ContainsAny s chars`: does `s` contain any
character of `chars`? -/
def containsAny (s chars : Str) : Bool := s.any (fun c => chars.contains c)

/-- Error kinds of the program, after §7 of the spec.  `ctx p e` models
`fmt.Errorf`-style wrapping of `e` with the path/identifier context `p`
(`%w` chains). -/
inductive RegErr where
  | notFound
  | accessDenied
  | helperNotFound
  | ctx (path : List Str) (e : RegErr)
deriving DecidableEq

/-- Model of the `ContextMenu` manifest-node struct (main.go:185-194).
`items` is an association list standing for Go's `map[string]*ContextMenu`
(keys unique, iteration order fixed by the list). -/
inductive ContextMenu where
  | mk (type : Str) (title : Str) (iconPath : Str) (iconIndex : Option Int)
       (extended : Bool) (admin : Bool) (command : List Str)
       (items : List (Str × ContextMenu))

def ContextMenu.type : ContextMenu → Str
  | .mk t _ _ _ _ _ _ _ => t

def ContextMenu.title : ContextMenu → Str
  | .mk _ t _ _ _ _ _ _ => t

def ContextMenu.iconPath : ContextMenu → Str
  | .mk _ _ p _ _ _ _ _ => p

def ContextMenu.iconIndex : ContextMenu → Option Int
  | .mk _ _ _ i _ _ _ _ => i

def ContextMenu.extended : ContextMenu → Bool
  | .mk _ _ _ _ e _ _ _ => e

def ContextMenu.admin : ContextMenu → Bool
  | .mk _ _ _ _ _ a _ _ => a

def ContextMenu.command : ContextMenu → List Str
  | .mk _ _ _ _ _ _ c _ => c

def ContextMenu.items : ContextMenu → List (Str × ContextMenu)
  | .mk _ _ _ _ _ _ _ i => i

def ContextMenuType_Item : Str := str "item"

def ContextMenuType_Folder : Str := str "folder"

/-- Model of `ContextMenu.Icon` (main.go:207-218): empty when no icon
path is configured; otherwise substitute `${manifestFolder}`, quote
unconditionally, and append `,<index>` when an icon index is present
(`fmt.Sprintf "%s,%d"`; `toString : Int → String` agrees with Go `%d`). -/
def ContextMenu.Icon (c : ContextMenu) (manifestDir : Str) : Str :=
  if c.iconPath = [] then [] else
  let iconPath := replaceAll c.iconPath (str "${manifestFolder}") manifestDir
  let iconPath := quoteWindowsPath iconPath
  match c.iconIndex with
  | some i => iconPath ++ str "," ++ (toString i).data
  | none => iconPath

/-- Model of `ContextMenu.CommandString` (main.go:220-241).  `nircmd` is
the result of `findNircmd` (external filesystem probing): `some p` when
the elevation helper was located at `p`, `none` when it cannot be found.
The Go code reacts to a lookup failure with `log.Fatal`, aborting the
process; the embedding renders that abort as `Except.error`. -/
def ContextMenu.CommandString (c : ContextMenu) (manifestDir : Str)
    (nircmd : Option Str) : Except RegErr Str :=
  match (if c.admin then
          match nircmd with
          | some p => Except.ok [quoteWindowsPath p, str "elevate"]
          | none => Except.error RegErr.helperNotFound
         else Except.ok ([] : List Str)) with
  | .error e => .error e
  | .ok command0 =>
    .ok (List.intercalate (str " ")
      (c.command.foldl (fun acc part =>
        let part := replaceAll part (str "${manifestFolder}") manifestDir
        let part := if containsAny part (str " %") then quoteWindowsPath part else part
        acc ++ [part]) command0))

/-- Registry value payload: `SetStringValue` stores `rstr`,
`SetExpandStringValue` stores `rexpand` (REG_SZ vs REG_EXPAND_SZ). -/
inductive RegVal where
  | rstr (v : Str)
  | rexpand (v : Str)
deriving DecidableEq

/-- Model of one registry key: named scalar values plus named child keys,
both as association lists (names unique in every reachable state). -/
inductive RegNode where
  | mk (vals : List (Str × RegVal)) (children : List (Str × RegNode))

def RegNode.vals : RegNode → List (Str × RegVal)
  | .mk v _ => v

def RegNode.children : RegNode → List (Str × RegNode)
  | .mk _ c => c

def RegNode.empty : RegNode := .mk [] []

instance : Inhabited RegNode := ⟨RegNode.empty⟩

def findChild (k : Str) : List (Str × RegNode) → Option RegNode
  | [] => none
  | (k', c) :: rest => if k' = k then some c else findChild k rest

def setChild (k : Str) (n : RegNode) : List (Str × RegNode) → List (Str × RegNode)
  | [] => [(k, n)]
  | (k', c) :: rest => if k' = k then (k, n) :: rest else (k', c) :: setChild k n rest

/-- Remove the child named `k` (child names are unique in every state the
adapter can reach, so removing every occurrence coincides with removing
the one registry subkey of that name). -/
def removeChild (k : Str) : List (Str × RegNode) → List (Str × RegNode)
  | [] => []
  | (k', c) :: rest => if k' = k then removeChild k rest else (k', c) :: removeChild k rest

/-- Set a named scalar value on one key (replace in place or append),
modelling `RegSetValueEx` overwrite semantics. -/
def putVal (name : Str) (v : RegVal) : List (Str × RegVal) → List (Str × RegVal)
  | [] => [(name, v)]
  | (n', v') :: rest => if n' = name then (name, v) :: rest else (n', v') :: putVal name v rest

def getVal (name : Str) : List (Str × RegVal) → Option RegVal
  | [] => none
  | (n', v') :: rest => if n' = name then some v' else getVal name rest

def RegNode.find : RegNode → List Str → Option RegNode
  | n, [] => some n
  | n, k :: rest =>
    match findChild k n.children with
    | some c => c.find rest
    | none => none

/-- Graft `m` at `path`, creating missing intermediate keys as empty keys
and preserving existing intermediate keys. -/
def RegNode.setAt : RegNode → List Str → RegNode → RegNode
  | _, [], m => m
  | n, k :: rest, m =>
    .mk n.vals (setChild k
      ((match findChild k n.children with
        | some c => c
        | none => RegNode.empty).setAt rest m) n.children)

/-- Remove the key at `path` (and its whole subtree); no-op when some
segment of the path does not exist.  `removeAt n [] = n` (the root hive
key cannot be deleted). -/
def RegNode.removeAt : RegNode → List Str → RegNode
  | n, [] => n
  | n, [k] => .mk n.vals (removeChild k n.children)
  | n, k :: rest =>
    .mk n.vals (match findChild k n.children with
      | some c => setChild k (c.removeAt rest) n.children
      | none => n.children)

/-- Apply `f` to the key at `path`; no-op when the path does not exist. -/
def RegNode.modifyAt : RegNode → List Str → (RegNode → RegNode) → RegNode
  | n, [], f => f n
  | n, k :: rest, f =>
    .mk n.vals (match findChild k n.children with
      | some c => setChild k (c.modifyAt rest f) n.children
      | none => n.children)

mutual
/-- Post-order enumeration of the absolute paths of every key of the
subtree rooted at `abs` holding `n`: all descendants, children before
parents, with `abs` itself last. -/
def postOrder (abs : List Str) : RegNode → List (List Str)
  | .mk _ children => postOrderChildren abs children ++ [abs]

def postOrderChildren (abs : List Str) : List (Str × RegNode) → List (List Str)
  | [] => []
  | (name, c) :: rest => postOrder (abs ++ [name]) c ++ postOrderChildren abs rest
end

/-- Model of `registry.DeleteKey` together with the "not found is
success" tolerance of main.go:273-280: attempt to delete the key `abs`
(`present` says whether it currently exists).  Returns the outcome and
whether the key is still present afterwards.  A missing key yields
ENOENT from the adapter, which the code maps to success; a delete-locked
path yields the wrapped access error. -/
def deleteKeyAttempt (ld : List (List Str)) (abs : List Str) (present : Bool) :
    Except RegErr Unit × Bool :=
  if present then
    if abs ∈ ld then (.error (.ctx abs .accessDenied), true) else (.ok (), false)
  else (.ok (), false)

mutual
/-- Body of `deleteRegKeyRecursive` (main.go:243-282) after a successful
open of the key `abs` currently holding subtree `n`: erase every child in
order (post-order), then attempt to delete `abs` itself.  Returns the
outcome, the remaining subtree at `abs` (`none` when the key was
deleted), and the trace of `DeleteKey` calls attempted, in order.  The
recursion is structured on the subtree (the Go code recurses through
handle + relative name, i.e. through the same absolute paths). -/
def eraseNode (lo ld : List (List Str)) (abs : List Str) :
    RegNode → Except RegErr Unit × Option RegNode × List (List Str)
  | .mk vals children =>
    match eraseChildren lo ld abs children with
    | (.error e, children', tr) => (.error e, some (.mk vals children'), tr)
    | (.ok _, children', tr) =>
      match deleteKeyAttempt ld abs true with
      | (.error e, _) => (.error e, some (.mk vals children'), tr ++ [abs])
      | (.ok _, _) => (.ok (), none, tr ++ [abs])

/-- The child loop of `deleteRegKeyRecursive` (main.go:265-270): each
child is erased by a recursive call (which first opens the child — the
child exists, so that open fails only on an open-locked path, modelling
main.go:248-255); the first failure is wrapped with the child path and
aborts the remaining siblings. -/
def eraseChildren (lo ld : List (List Str)) (abs : List Str) :
    List (Str × RegNode) → Except RegErr Unit × List (Str × RegNode) × List (List Str)
  | [] => (.ok (), [], [])
  | (name, c) :: rest =>
    if (abs ++ [name]) ∈ lo then
      (.error (.ctx (abs ++ [name]) (.ctx (abs ++ [name]) .accessDenied)),
        (name, c) :: rest, [])
    else
      match eraseNode lo ld (abs ++ [name]) c with
      | (.error e, c?, tr) =>
        (.error (.ctx (abs ++ [name]) e),
          (match c? with | some c' => (name, c') :: rest | none => rest), tr)
      | (.ok _, _, tr) =>
        match eraseChildren lo ld abs rest with
        | (r, rest', tr') => (r, rest', tr ++ tr')
end

/-- Model of `deleteRegKeyRecursive` (main.go:243-282), the recursive
subtree eraser: open `k ++ p` ("not found" is success, main.go:248-252),
then erase the subtree post-order via `eraseNode`.  Returns the outcome,
the new registry state, and the trace of attempted `DeleteKey` calls. -/
def deleteRegKeyRecursive (lo ld : List (List Str)) (k p : List Str) (s : RegNode) :
    Except RegErr Unit × RegNode × List (List Str) :=
  match s.find (k ++ p) with
  | none => (.ok (), s, [])
  | some n =>
    if (k ++ p) ∈ lo then (.error (.ctx (k ++ p) .accessDenied), s, [])
    else
      match eraseNode lo ld (k ++ p) n with
      | (.ok _, _, tr) => (.ok (), s.removeAt (k ++ p), tr)
      | (.error e, some n', tr) => (.error e, s.setAt (k ++ p) n', tr)
      | (.error e, none, tr) => (.error e, s.removeAt (k ++ p), tr)

/-- Model of `registry.CreateKey`: opens the key at `p` if it exists,
creating it (and all missing intermediate keys) otherwise; fails with an
access error on an open-locked path. -/
def createKey (lo : List (List Str)) (s : RegNode) (p : List Str) :
    Except RegErr RegNode :=
  if p ∈ lo then .error .accessDenied
  else .ok (s.setAt p (match s.find p with | some t => t | none => RegNode.empty))

/-- Fixed namespace prefix of every created key (main.go:21):
`Software\Classes\Directory\Background\shell`. -/
def basePrefix : List Str :=
  [str "Software", str "Classes", str "Directory", str "Background", str "shell"]

mutual
/-- Model of `createContextMenu` (main.go:18-84): erase the stale subtree
at `Software\Classes\Directory\Background\shell ++ parent ++ [id]`,
recreate the key, project title / icon / extended / admin, then branch on
the node type: `folder` marks `SubCommands`, creates the `shell`
children container and recurses into `items`; anything else writes the
projected command string as the expandable default value of a fresh
`command` subkey.  Errors are wrapped with the offending path
(`fmt.Errorf` with `%w`). -/
def createContextMenu (lo ld : List (List Str)) (nircmd : Option Str) (manifestDir : Str)
    (parent : List Str) (id : Str) : ContextMenu → RegNode → Except RegErr Unit × RegNode
  | .mk ty title ip ii ext adm cmd items, s =>
    let item : ContextMenu := .mk ty title ip ii ext adm cmd items
    let keyPath := basePrefix ++ parent ++ [id]
    match deleteRegKeyRecursive lo ld [] keyPath s with
    | (.error e, s1, _) => (.error (.ctx keyPath e), s1)
    | (.ok _, s1, _) =>
      match createKey lo s1 keyPath with
      | .error e => (.error (.ctx keyPath e), s1)
      | .ok s2 =>
        let s3 := s2.modifyAt keyPath (fun t => .mk (putVal (str "MUIVerb") (.rstr title) t.vals) t.children)
        let s4 := if item.Icon manifestDir = [] then s3
          else s3.modifyAt keyPath (fun t => .mk (putVal (str "Icon") (.rstr (item.Icon manifestDir)) t.vals) t.children)
        let s5 := if ext then
            s4.modifyAt keyPath (fun t => .mk (putVal (str "Extended") (.rstr []) t.vals) t.children)
          else s4
        let s6 := if adm then
            s5.modifyAt keyPath (fun t => .mk (putVal (str "HasLUAShield") (.rstr []) t.vals) t.children)
          else s5
        if ty = ContextMenuType_Folder then
          let s7 := s6.modifyAt keyPath (fun t => .mk (putVal (str "SubCommands") (.rstr []) t.vals) t.children)
          match createKey lo s7 (keyPath ++ [str "shell"]) with
          | .error e => (.error (.ctx keyPath e), s7)
          | .ok s8 => createContextMenuList lo ld nircmd manifestDir (parent ++ [id, str "shell"]) items s8
        else
          let cmdPath := keyPath ++ [str "command"]
          match deleteRegKeyRecursive lo ld [] cmdPath s6 with
          | (.error e, s7, _) => (.error (.ctx cmdPath e), s7)
          | (.ok _, s7, _) =>
            match createKey lo s7 cmdPath with
            | .error e => (.error (.ctx cmdPath e), s7)
            | .ok s8 =>
              match item.CommandString manifestDir nircmd with
              | .error e => (.error e, s8)
              | .ok cmdStr =>
                (.ok (), s8.modifyAt cmdPath (fun t => .mk (putVal (str "") (.rexpand cmdStr) t.vals) t.children))

/-- The recursion of main.go:62-67 over a folder's `items`, and equally
the top-level loop of `run` (main.go:104-109) when `parent = []`:
process entries in order, fail fast, wrap each failure with the entry
identifier. -/
def createContextMenuList (lo ld : List (List Str)) (nircmd : Option Str) (manifestDir : Str)
    (parent : List Str) : List (Str × ContextMenu) → RegNode → Except RegErr Unit × RegNode
  | [], s => (.ok (), s)
  | (subID, subItem) :: rest, s =>
    match createContextMenu lo ld nircmd manifestDir parent subID subItem s with
    | (.error e, s') => (.error (.ctx [subID] e), s')
    | (.ok _, s') => createContextMenuList lo ld nircmd manifestDir parent rest s'
end

/-- Model of the installation loop of `run` (main.go:104-109): apply
`createContextMenu` with empty parent path to each top-level manifest
entry in order, failing fast.  Manifest location and JSON parsing
(main.go:92-103) are external input handling; the parsed tree is the
`items` argument. -/
def installList (lo ld : List (List Str)) (nircmd : Option Str) (manifestDir : Str)
    (items : List (Str × ContextMenu)) (s : RegNode) : Except RegErr Unit × RegNode :=
  createContextMenuList lo ld nircmd manifestDir [] items s

instance : DecidableEq (Except RegErr Str) := fun a b =>
  match a, b with
  | .ok x, .ok y =>
    if h : x = y then .isTrue (by rw [h]) else .isFalse (by intro c; cases c; exact h rfl)
  | .error x, .error y =>
    if h : x = y then .isTrue (by rw [h]) else .isFalse (by intro c; cases c; exact h rfl)
  | .ok _, .error _ => .isFalse (by intro c; cases c)
  | .error _, .ok _ => .isFalse (by intro c; cases c)

/-- Specification-side helper: the per-entry state transformation of a
top-level install, as a pure graft: remove the subtree at
`basePrefix ++ [id]` and graft the replacement node `n` there. -/
def graftEntry (id : Str) (n : RegNode) (s : RegNode) : RegNode :=
  (s.removeAt (basePrefix ++ [id])).setAt (basePrefix ++ [id]) n

/-- Specification-side helper: run a list of precomputed per-entry
results `(id, (status, node))` the way the top-level install loop does:
graft each node, stop after the first entry whose status is an error,
wrapping it with the entry identifier. -/
def runPure : List (Str × (Except RegErr Unit × RegNode)) → RegNode →
    Except RegErr Unit × RegNode
  | [], s => (.ok (), s)
  | (id, (r, n)) :: rest, s =>
    match r with
    | .error e => (.error (.ctx [id] e), graftEntry id n s)
    | .ok _ => runPure rest (graftEntry id n s)

/-- Specification-side helper: the overall status such a run reports. -/
def statusOf : List (Str × (Except RegErr Unit × RegNode)) → Except RegErr Unit
  | [] => .ok ()
  | (id, (r, _)) :: rest =>
    match r with
    | .error e => .error (.ctx [id] e)
    | .ok _ => statusOf rest

/-- Specification-side helper: the entries such a run actually grafts
(everything up to and including the first failing entry). -/
def takeRun : List (Str × (Except RegErr Unit × RegNode)) → List (Str × RegNode)
  | [] => []
  | (id, (r, n)) :: rest =>
    match r with
    | .error _ => [(id, n)]
    | .ok _ => (id, n) :: takeRun rest

/-- Specification-side helper: apply a list of child grafts to a
children list: each entry removes its key and appends its node. -/
def applyEnts (ents : List (Str × RegNode)) (cs : List (Str × RegNode)) :
    List (Str × RegNode) :=
  ents.foldl (fun cs e => setChild e.1 e.2 (removeChild e.1 cs)) cs

/-- Key names of a children list. -/
def keysOf (cs : List (Str × RegNode)) : List Str := cs.map Prod.fst


/-! Basic algebra of the registry-tree operations. -/

theorem RegNode.eta (n : RegNode) : RegNode.mk n.vals n.children = n := by
  cases n
  rfl

theorem findChild_setChild_self (k : Str) (n : RegNode) (cs : List (Str × RegNode)) :
    findChild k (setChild k n cs) = some n := by
  induction cs with
  | nil => simp [setChild, findChild]
  | cons hd tl ih =>
    obtain ⟨k', c⟩ := hd
    by_cases h : k' = k <;> simp [setChild, findChild, h, ih]

theorem setChild_setChild (k : Str) (m n : RegNode) (cs : List (Str × RegNode)) :
    setChild k m (setChild k n cs) = setChild k m cs := by
  induction cs with
  | nil => simp [setChild]
  | cons hd tl ih =>
    obtain ⟨k', c⟩ := hd
    by_cases h : k' = k <;> simp [setChild, h, ih]

theorem setChild_of_findChild_eq (k : Str) (c : RegNode) (cs : List (Str × RegNode))
    (h : findChild k cs = some c) : setChild k c cs = cs := by
  induction cs with
  | nil => simp [findChild] at h
  | cons hd tl ih =>
    obtain ⟨k', c'⟩ := hd
    by_cases hk : k' = k
    · subst hk
      simp [findChild] at h
      simp [setChild, h]
    · simp [findChild, hk] at h
      simp [setChild, hk, ih h]

theorem removeChild_of_findChild_none (k : Str) (cs : List (Str × RegNode))
    (h : findChild k cs = none) : removeChild k cs = cs := by
  induction cs with
  | nil => simp [removeChild]
  | cons hd tl ih =>
    obtain ⟨k', c'⟩ := hd
    by_cases hk : k' = k
    · simp [findChild, hk] at h
    · simp [findChild, hk] at h
      simp [removeChild, hk, ih h]

theorem findChild_removeChild_self (k : Str) (cs : List (Str × RegNode)) :
    findChild k (removeChild k cs) = none := by
  induction cs with
  | nil => simp [removeChild, findChild]
  | cons hd tl ih =>
    obtain ⟨k', c'⟩ := hd
    by_cases hk : k' = k <;> simp [removeChild, findChild, hk, ih]

theorem setChild_of_findChild_none (k : Str) (n : RegNode) (cs : List (Str × RegNode))
    (h : findChild k cs = none) : setChild k n cs = cs ++ [(k, n)] := by
  induction cs with
  | nil => simp [setChild]
  | cons hd tl ih =>
    obtain ⟨k', c'⟩ := hd
    by_cases hk : k' = k
    · simp [findChild, hk] at h
    · simp [findChild, hk] at h
      simp [setChild, hk, ih h]

theorem removeChild_append (k : Str) (cs ds : List (Str × RegNode)) :
    removeChild k (cs ++ ds) = removeChild k cs ++ removeChild k ds := by
  induction cs with
  | nil => simp [removeChild]
  | cons hd tl ih =>
    obtain ⟨k', c'⟩ := hd
    by_cases hk : k' = k <;> simp [removeChild, hk, ih]

theorem findChild_eq_none_iff (k : Str) (cs : List (Str × RegNode)) :
    findChild k cs = none ↔ k ∉ keysOf cs := by
  induction cs with
  | nil => simp [findChild, keysOf]
  | cons hd tl ih =>
    obtain ⟨k', c'⟩ := hd
    by_cases hk : k' = k
    · subst hk
      simp [findChild, keysOf]
    · have hk' : ¬ k = k' := fun h => hk h.symm
      simp [findChild, keysOf, hk, hk', ih]

@[simp] theorem RegNode.vals_mk (v : List (Str × RegVal)) (c : List (Str × RegNode)) :
    (RegNode.mk v c).vals = v := rfl

@[simp] theorem RegNode.children_mk (v : List (Str × RegVal)) (c : List (Str × RegNode)) :
    (RegNode.mk v c).children = c := rfl

@[simp] theorem find_nil (s : RegNode) : s.find [] = some s := rfl

theorem find_cons_some {k : Str} {s c : RegNode} (rest : List Str)
    (hf : findChild k s.children = some c) : s.find (k :: rest) = c.find rest := by
  simp [RegNode.find, hf]

theorem find_cons_none {k : Str} {s : RegNode} (rest : List Str)
    (hf : findChild k s.children = none) : s.find (k :: rest) = none := by
  simp [RegNode.find, hf]

@[simp] theorem setAt_nil (s m : RegNode) : s.setAt [] m = m := rfl

theorem setAt_cons_some {k : Str} {s c : RegNode} (rest : List Str) (m : RegNode)
    (hf : findChild k s.children = some c) :
    s.setAt (k :: rest) m = .mk s.vals (setChild k (c.setAt rest m) s.children) := by
  simp [RegNode.setAt, hf]

theorem setAt_cons_none {k : Str} {s : RegNode} (rest : List Str) (m : RegNode)
    (hf : findChild k s.children = none) :
    s.setAt (k :: rest) m = .mk s.vals (setChild k (RegNode.empty.setAt rest m) s.children) := by
  simp [RegNode.setAt, hf]

@[simp] theorem modifyAt_nil (s : RegNode) (f : RegNode → RegNode) : s.modifyAt [] f = f s := rfl

theorem modifyAt_cons_some {k : Str} {s c : RegNode} (rest : List Str) (f : RegNode → RegNode)
    (hf : findChild k s.children = some c) :
    s.modifyAt (k :: rest) f = .mk s.vals (setChild k (c.modifyAt rest f) s.children) := by
  simp [RegNode.modifyAt, hf]

theorem modifyAt_cons_none {k : Str} {s : RegNode} (rest : List Str) (f : RegNode → RegNode)
    (hf : findChild k s.children = none) : s.modifyAt (k :: rest) f = .mk s.vals s.children := by
  simp [RegNode.modifyAt, hf]

@[simp] theorem removeAt_nil (s : RegNode) : s.removeAt [] = s := rfl

@[simp] theorem removeAt_single (s : RegNode) (k : Str) :
    s.removeAt [k] = .mk s.vals (removeChild k s.children) := rfl

theorem removeAt_cons_of_ne_nil {rest : List Str} (hr : rest ≠ []) (s : RegNode) (k : Str) :
    s.removeAt (k :: rest) = .mk s.vals (match findChild k s.children with
      | some c => setChild k (c.removeAt rest) s.children
      | none => s.children) := by
  cases rest with
  | nil => exact absurd rfl hr
  | cons k2 rest' => rfl

theorem empty_find_getD (p : List Str) :
    ((RegNode.empty.find p).getD RegNode.empty) = RegNode.empty := by
  cases p with
  | nil => rfl
  | cons k rest =>
    rw [@find_cons_none k RegNode.empty rest rfl]
    rfl

theorem find_setAt_append (p q : List Str) (s m : RegNode) :
    (s.setAt (p ++ q) m).find p = some (((s.find p).getD RegNode.empty).setAt q m) := by
  induction p generalizing s with
  | nil => rfl
  | cons k p' ih =>
    cases hf : findChild k s.children with
    | some c =>
      rw [List.cons_append, setAt_cons_some (p' ++ q) m hf,
        find_cons_some p' (findChild_setChild_self k (c.setAt (p' ++ q) m) s.children), ih,
        find_cons_some p' hf]
    | none =>
      rw [List.cons_append, setAt_cons_none (p' ++ q) m hf,
        find_cons_some p'
          (findChild_setChild_self k (RegNode.empty.setAt (p' ++ q) m) s.children), ih,
        find_cons_none p' hf, empty_find_getD]
      simp

theorem find_setAt_self (p : List Str) (s m : RegNode) : (s.setAt p m).find p = some m := by
  have h := find_setAt_append p [] s m
  simpa using h

theorem setAt_setAt (p : List Str) (s n m : RegNode) :
    (s.setAt p n).setAt p m = s.setAt p m := by
  induction p generalizing s with
  | nil => simp
  | cons k p' ih =>
    cases hf : findChild k s.children with
    | some c =>
      rw [setAt_cons_some p' n hf, setAt_cons_some p' m hf,
        setAt_cons_some p' m (findChild_setChild_self k (c.setAt p' n) s.children)]
      simp [setChild_setChild, ih]
    | none =>
      rw [setAt_cons_none p' n hf, setAt_cons_none p' m hf,
        setAt_cons_some p' m (findChild_setChild_self k (RegNode.empty.setAt p' n) s.children)]
      simp [setChild_setChild, ih]

theorem setAt_find_self {p : List Str} {s t : RegNode} (h : s.find p = some t) :
    s.setAt p t = s := by
  induction p generalizing s with
  | nil =>
    simp at h
    simp [h]
  | cons k p' ih =>
    cases hf : findChild k s.children with
    | some c =>
      rw [find_cons_some p' hf] at h
      rw [setAt_cons_some p' t hf, ih h, setChild_of_findChild_eq k c s.children hf,
        RegNode.eta]
    | none =>
      rw [find_cons_none p' hf] at h
      exact absurd h (by simp)

theorem setAt_append_of_find {p : List Str} {s t : RegNode} (q : List Str) (m : RegNode)
    (h : s.find p = some t) : s.setAt (p ++ q) m = s.setAt p (t.setAt q m) := by
  induction p generalizing s with
  | nil =>
    simp at h
    simp [h]
  | cons k p' ih =>
    cases hf : findChild k s.children with
    | some c =>
      rw [find_cons_some p' hf] at h
      rw [List.cons_append, setAt_cons_some (p' ++ q) m hf,
        setAt_cons_some p' (t.setAt q m) hf, ih h]
    | none =>
      rw [find_cons_none p' hf] at h
      exact absurd h (by simp)

theorem removeAt_append_of_find {p q : List Str} {s t : RegNode} (hq : q ≠ [])
    (h : s.find p = some t) : s.removeAt (p ++ q) = s.setAt p (t.removeAt q) := by
  induction p generalizing s with
  | nil =>
    simp at h
    simp [h]
  | cons k p' ih =>
    cases hf : findChild k s.children with
    | some c =>
      rw [find_cons_some p' hf] at h
      rw [List.cons_append, removeAt_cons_of_ne_nil (by simp [hq]) s k,
        setAt_cons_some p' (t.removeAt q) hf]
      simp [hf, ih h]
    | none =>
      rw [find_cons_none p' hf] at h
      exact absurd h (by simp)

theorem modifyAt_append_of_find {p : List Str} {s t : RegNode} (q : List Str)
    (f : RegNode → RegNode) (h : s.find p = some t) :
    s.modifyAt (p ++ q) f = s.setAt p (t.modifyAt q f) := by
  induction p generalizing s with
  | nil =>
    simp at h
    simp [h]
  | cons k p' ih =>
    cases hf : findChild k s.children with
    | some c =>
      rw [find_cons_some p' hf] at h
      rw [List.cons_append, modifyAt_cons_some (p' ++ q) f hf,
        setAt_cons_some p' (t.modifyAt q f) hf, ih h]
    | none =>
      rw [find_cons_none p' hf] at h
      exact absurd h (by simp)

theorem removeAt_of_find_none {p : List Str} {s : RegNode} (h : s.find p = none) :
    s.removeAt p = s := by
  induction p generalizing s with
  | nil => simp at h
  | cons k p' ih =>
    cases hf : findChild k s.children with
    | some c =>
      rw [find_cons_some p' hf] at h
      cases p' with
      | nil => simp at h
      | cons k2 rest =>
        rw [removeAt_cons_of_ne_nil (by simp) s k]
        simp [hf, ih h, setChild_of_findChild_eq k c s.children hf, RegNode.eta]
    | none =>
      cases p' with
      | nil => simp [removeChild_of_findChild_none k s.children hf, RegNode.eta]
      | cons k2 rest =>
        rw [removeAt_cons_of_ne_nil (by simp) s k]
        simp [hf, RegNode.eta]

theorem find_removeAt_self {p : List Str} (hp : p ≠ []) (s : RegNode) :
    (s.removeAt p).find p = none := by
  induction p generalizing s with
  | nil => exact absurd rfl hp
  | cons k p' ih =>
    cases p' with
    | nil =>
      rw [removeAt_single]
      exact find_cons_none [] (by simp [findChild_removeChild_self])
    | cons k2 rest =>
      rw [removeAt_cons_of_ne_nil (by simp) s k]
      cases hf : findChild k s.children with
      | some c =>
        simp only [hf]
        rw [find_cons_some (k2 :: rest)
          (findChild_setChild_self k (c.removeAt (k2 :: rest)) s.children)]
        exact ih (by simp) c
      | none =>
        simp only [hf]
        exact find_cons_none (k2 :: rest) hf

/-! Characterization of the recursive subtree eraser. -/

mutual
theorem eraseNode_nil (abs : List Str) : ∀ (n : RegNode),
    eraseNode [] [] abs n = (.ok (), none, postOrder abs n)
  | .mk vals children => by
    have h := eraseChildren_nil abs children
    simp [eraseNode, postOrder, h, deleteKeyAttempt]

theorem eraseChildren_nil (abs : List Str) : ∀ (cs : List (Str × RegNode)),
    eraseChildren [] [] abs cs = (.ok (), [], postOrderChildren abs cs)
  | [] => by simp [eraseChildren, postOrderChildren]
  | (name, c) :: rest => by
    have h1 := eraseNode_nil (abs ++ [name]) c
    have h2 := eraseChildren_nil abs rest
    simp [eraseChildren, postOrderChildren, h1, h2]
end

theorem deleteRegKeyRecursive_nil (k p : List Str) (s : RegNode) :
    deleteRegKeyRecursive [] [] k p s
      = (.ok (), s.removeAt (k ++ p), (s.find (k ++ p)).elim [] (postOrder (k ++ p))) := by
  cases hf : s.find (k ++ p) with
  | none => simp [deleteRegKeyRecursive, hf, removeAt_of_find_none hf]
  | some n => simp [deleteRegKeyRecursive, hf, eraseNode_nil]

mutual
theorem eraseNode_trace (lo ld : List (List Str)) (abs : List Str) : ∀ (n : RegNode),
    (∃ rest, postOrder abs n = (eraseNode lo ld abs n).2.2 ++ rest)
    ∧ (∀ e n' tr, eraseNode lo ld abs n = (.error e, n', tr) →
        (∃ p' e', e = .ctx p' e') ∧ n'.isSome)
    ∧ (∀ u n' tr, eraseNode lo ld abs n = (.ok u, n', tr) → tr = postOrder abs n)
  | .mk vals children => by
    obtain ⟨hpre, herr, hok⟩ := eraseChildren_trace lo ld abs children
    cases h : eraseChildren lo ld abs children with
    | mk r rest' =>
      obtain ⟨cs', tr⟩ := rest'
      cases r with
      | error e =>
        obtain ⟨pe, ee, hee⟩ := (herr e cs' tr h).1
        refine ⟨?_, ?_, ?_⟩
        · obtain ⟨rest, hrest⟩ := hpre
          rw [h] at hrest
          exact ⟨rest ++ [abs], by simp [eraseNode, h, postOrder, hrest]⟩
        · intro e' n' tr' h'
          simp [eraseNode, h] at h'
          exact ⟨⟨pe, ee, by rw [← h'.1, hee]⟩, by simp [← h'.2.1]⟩
        · intro u n' tr' h'
          simp [eraseNode, h] at h'
      | ok u =>
        have htr := hok u cs' tr h
        by_cases hld : abs ∈ ld
        · refine ⟨?_, ?_, ?_⟩
          · exact ⟨[], by simp [eraseNode, h, deleteKeyAttempt, hld, postOrder, htr]⟩
          · intro e' n' tr' h'
            simp [eraseNode, h, deleteKeyAttempt, hld] at h'
            exact ⟨⟨abs, .accessDenied, h'.1.symm⟩, by simp [← h'.2.1]⟩
          · intro u' n' tr' h'
            simp [eraseNode, h, deleteKeyAttempt, hld] at h'
        · refine ⟨?_, ?_, ?_⟩
          · exact ⟨[], by simp [eraseNode, h, deleteKeyAttempt, hld, postOrder, htr]⟩
          · intro e' n' tr' h'
            simp [eraseNode, h, deleteKeyAttempt, hld] at h'
          · intro u' n' tr' h'
            simp [eraseNode, h, deleteKeyAttempt, hld] at h'
            simp [← h'.2, htr, postOrder]

theorem eraseChildren_trace (lo ld : List (List Str)) (abs : List Str) :
    ∀ (cs : List (Str × RegNode)),
    (∃ rest, postOrderChildren abs cs = (eraseChildren lo ld abs cs).2.2 ++ rest)
    ∧ (∀ e cs' tr, eraseChildren lo ld abs cs = (.error e, cs', tr) →
        (∃ p' e', e = .ctx p' e') ∧ True)
    ∧ (∀ u cs' tr, eraseChildren lo ld abs cs = (.ok u, cs', tr) →
        tr = postOrderChildren abs cs)
  | [] => by
    refine ⟨⟨[], by simp [eraseChildren, postOrderChildren]⟩, ?_, ?_⟩
    · intro e cs' tr h
      simp [eraseChildren] at h
    · intro u cs' tr h
      simp [eraseChildren] at h
      simp [postOrderChildren, h.2]
  | (name, c) :: rest => by
    obtain ⟨hcpre, hcerr, hcok⟩ := eraseNode_trace lo ld (abs ++ [name]) c
    obtain ⟨hrpre, hrerr, hrok⟩ := eraseChildren_trace lo ld abs rest
    by_cases hlo : (abs ++ [name]) ∈ lo
    · refine ⟨⟨postOrderChildren abs ((name, c) :: rest), by
        simp [eraseChildren, hlo]⟩, ?_, ?_⟩
      · intro e cs' tr h
        simp [eraseChildren, hlo] at h
        exact ⟨⟨abs ++ [name], .ctx (abs ++ [name]) .accessDenied, h.1.symm⟩, trivial⟩
      · intro u cs' tr h
        simp [eraseChildren, hlo] at h
    · cases h1 : eraseNode lo ld (abs ++ [name]) c with
      | mk r1 rest1 =>
        obtain ⟨c?, tr1⟩ := rest1
        cases r1 with
        | error e1 =>
          refine ⟨?_, ?_, ?_⟩
          · obtain ⟨r, hr⟩ := hcpre
            rw [h1] at hr
            exact ⟨r ++ postOrderChildren abs rest, by
              simp [eraseChildren, hlo, h1, postOrderChildren, hr]⟩
          · intro e cs' tr h
            simp [eraseChildren, hlo, h1] at h
            exact ⟨⟨abs ++ [name], e1, h.1.symm⟩, trivial⟩
          · intro u cs' tr h
            simp [eraseChildren, hlo, h1] at h
        | ok u1 =>
          have htr1 := hcok u1 c? tr1 h1
          cases h2 : eraseChildren lo ld abs rest with
          | mk r2 rest2 =>
            obtain ⟨cs2, tr2⟩ := rest2
            cases r2 with
            | error e2 =>
              refine ⟨?_, ?_, ?_⟩
              · obtain ⟨r, hr⟩ := hrpre
                rw [h2] at hr
                exact ⟨r, by simp [eraseChildren, hlo, h1, h2, postOrderChildren, htr1, hr]⟩
              · intro e cs' tr h
                simp [eraseChildren, hlo, h1, h2] at h
                obtain ⟨pe, ee, hee⟩ := (hrerr e2 cs2 tr2 h2).1
                exact ⟨⟨pe, ee, by rw [← h.1, hee]⟩, trivial⟩
              · intro u cs' tr h
                simp [eraseChildren, hlo, h1, h2] at h
            | ok u2 =>
              have htr2 := hrok u2 cs2 tr2 h2
              refine ⟨?_, ?_, ?_⟩
              · exact ⟨[], by simp [eraseChildren, hlo, h1, h2, postOrderChildren, htr1, htr2]⟩
              · intro e cs' tr h
                simp [eraseChildren, hlo, h1, h2] at h
              · intro u cs' tr h
                simp [eraseChildren, hlo, h1, h2] at h
                simp [← h.2, htr1, htr2, postOrderChildren]
end

theorem find_append (p q : List Str) (s : RegNode) :
    s.find (p ++ q) = (s.find p).bind (fun t => t.find q) := by
  induction p generalizing s with
  | nil => simp
  | cons k p' ih =>
    cases hf : findChild k s.children with
    | some c => rw [List.cons_append, find_cons_some (p' ++ q) hf, find_cons_some p' hf, ih]
    | none =>
      rw [List.cons_append, find_cons_none (p' ++ q) hf, find_cons_none p' hf]
      rfl

theorem find_setAt_append_right (p q : List Str) (s t : RegNode) :
    (s.setAt p t).find (p ++ q) = t.find q := by
  rw [find_append, find_setAt_self]
  rfl

theorem modifyAt_setAt (p : List Str) (s t : RegNode) (f : RegNode → RegNode) :
    (s.setAt p t).modifyAt p f = s.setAt p (f t) := by
  have h := modifyAt_append_of_find [] f (find_setAt_self p s t)
  simpa [setAt_setAt] using h

theorem setAt_setAt_append (p q : List Str) (s t m : RegNode) :
    (s.setAt p t).setAt (p ++ q) m = s.setAt p (t.setAt q m) := by
  rw [setAt_append_of_find q m (find_setAt_self p s t), setAt_setAt]

theorem removeAt_setAt_append {q : List Str} (p : List Str) (hq : q ≠ []) (s t : RegNode) :
    (s.setAt p t).removeAt (p ++ q) = s.setAt p (t.removeAt q) := by
  rw [removeAt_append_of_find hq (find_setAt_self p s t), setAt_setAt]

theorem modifyAt_setAt_append (p q : List Str) (s t : RegNode) (f : RegNode → RegNode) :
    (s.setAt p t).modifyAt (p ++ q) f = s.setAt p (t.modifyAt q f) := by
  rw [modifyAt_append_of_find q f (find_setAt_self p s t), setAt_setAt]

theorem setAt_ite (c : Prop) [Decidable c] (s1 : RegNode) (kp : List Str) (a b : RegNode) :
    (if c then s1.setAt kp a else s1.setAt kp b) = s1.setAt kp (if c then a else b) :=
  (apply_ite (fun x => s1.setAt kp x) c a b).symm

theorem createKey_nil (s : RegNode) (p : List Str) :
    createKey [] s p
      = .ok (s.setAt p (match s.find p with | some t => t | none => RegNode.empty)) := by
  simp [createKey]

theorem createContextMenuList_graft (nircmd : Option Str) (dir : Str) :
    ∀ (l : List (Str × ContextMenu)) (parent' kp sfx : List Str), sfx ≠ [] →
    basePrefix ++ parent' = kp ++ sfx →
    (∀ e ∈ l, ∃ (r : Except RegErr Unit) (n : RegNode), ∀ s : RegNode,
      createContextMenu [] [] nircmd dir parent' e.1 e.2 s
        = (r, (s.removeAt (basePrefix ++ parent' ++ [e.1])).setAt
            (basePrefix ++ parent' ++ [e.1]) n)) →
    ∃ (r : Except RegErr Unit) (g : RegNode → RegNode), ∀ (s₁ t : RegNode),
      createContextMenuList [] [] nircmd dir parent' l (s₁.setAt kp t)
        = (r, s₁.setAt kp (g t)) := by
  intro l
  induction l with
  | nil =>
    intro parent' kp sfx hsfx hdec hB
    exact ⟨.ok (), fun t => t, fun s₁ t => by simp [createContextMenuList]⟩
  | cons e rest ih =>
    intro parent' kp sfx hsfx hdec hB
    obtain ⟨subID, subItem⟩ := e
    obtain ⟨rc, nc, hc⟩ := hB (subID, subItem) (by simp)
    have hA : basePrefix ++ parent' ++ [subID] = kp ++ (sfx ++ [subID]) := by
      rw [hdec, List.append_assoc]
    have hq : sfx ++ [subID] ≠ [] := by simp
    have hstep : ∀ (s₁ t : RegNode),
        createContextMenu [] [] nircmd dir parent' subID subItem (s₁.setAt kp t)
          = (rc, s₁.setAt kp ((t.removeAt (sfx ++ [subID])).setAt (sfx ++ [subID]) nc)) := by
      intro s₁ t
      rw [hc (s₁.setAt kp t), hA, removeAt_setAt_append kp hq, setAt_setAt_append]
    cases rc with
    | error e' =>
      refine ⟨.error (.ctx [subID] e'),
        fun t => (t.removeAt (sfx ++ [subID])).setAt (sfx ++ [subID]) nc, fun s₁ t => ?_⟩
      simp [createContextMenuList, hstep s₁ t]
    | ok u =>
      obtain ⟨r', g', hg'⟩ :=
        ih parent' kp sfx hsfx hdec (fun e he => hB e (List.mem_cons_of_mem _ he))
      refine ⟨r',
        fun t => g' ((t.removeAt (sfx ++ [subID])).setAt (sfx ++ [subID]) nc), fun s₁ t => ?_⟩
      simp [createContextMenuList, hstep s₁ t, hg']

theorem createContextMenu_graft (nircmd : Option Str) (dir : Str) :
    ∀ (N : Nat) (item : ContextMenu), sizeOf item ≤ N → ∀ (parent : List Str) (id : Str),
    ∃ (r : Except RegErr Unit) (n : RegNode), ∀ s : RegNode,
      createContextMenu [] [] nircmd dir parent id item s
        = (r, (s.removeAt (basePrefix ++ parent ++ [id])).setAt
            (basePrefix ++ parent ++ [id]) n) := by
  intro N
  induction N with
  | zero =>
    intro item hsz
    exact absurd hsz (by cases item; simp)
  | succ N ih =>
    intro item hsz parent id
    obtain ⟨ty, title, ip, ii, ext, adm, cmd, items⟩ := item
    have hkp : basePrefix ++ parent ++ [id] ≠ [] := by simp
    have hrm := fun (s t : RegNode) =>
      removeAt_setAt_append (basePrefix ++ parent ++ [id])
        (show ([str "command"] : List Str) ≠ [] from by simp) s t
    refine ⟨(createContextMenu [] [] nircmd dir parent id
        (.mk ty title ip ii ext adm cmd items) RegNode.empty).1,
      (((createContextMenu [] [] nircmd dir parent id
        (.mk ty title ip ii ext adm cmd items) RegNode.empty).2).find
          (basePrefix ++ parent ++ [id])).getD RegNode.empty,
      fun s => ?_⟩
    by_cases hty : ty = ContextMenuType_Folder
    · -- folder branch
      have hB : ∀ e ∈ items, ∃ (r : Except RegErr Unit) (n : RegNode), ∀ s : RegNode,
          createContextMenu [] [] nircmd dir (parent ++ [id, str "shell"]) e.1 e.2 s
            = (r, (s.removeAt (basePrefix ++ (parent ++ [id, str "shell"]) ++ [e.1])).setAt
                (basePrefix ++ (parent ++ [id, str "shell"]) ++ [e.1]) n) := by
        intro e he
        have h1 := List.sizeOf_lt_of_mem he
        obtain ⟨eid, eitem⟩ := e
        simp only [Prod.mk.sizeOf_spec] at h1
        simp only [ContextMenu.mk.sizeOf_spec] at hsz
        exact ih eitem (by omega) (parent ++ [id, str "shell"]) eid
      obtain ⟨rl, gl, hgl⟩ := createContextMenuList_graft nircmd dir items
        (parent ++ [id, str "shell"]) (basePrefix ++ parent ++ [id]) [str "shell"]
        (by simp) (by simp) hB
      simp only [createContextMenu, deleteRegKeyRecursive_nil, List.nil_append,
        createKey_nil, find_removeAt_self hkp, modifyAt_setAt, setAt_ite, hty, if_true,
        find_setAt_append_right, setAt_setAt_append, hgl, find_setAt_self, Option.getD_some]
    · -- item branch
      cases hCS : (ContextMenu.mk ty title ip ii ext adm cmd items).CommandString dir nircmd with
      | error e =>
        simp only [createContextMenu, deleteRegKeyRecursive_nil, List.nil_append,
          createKey_nil, find_removeAt_self hkp, modifyAt_setAt, setAt_ite, hty, if_false,
          hrm, find_setAt_append_right, setAt_setAt_append, modifyAt_setAt_append, hCS,
          find_setAt_self, Option.getD_some]
      | ok cmdStr =>
        simp only [createContextMenu, deleteRegKeyRecursive_nil, List.nil_append,
          createKey_nil, find_removeAt_self hkp, modifyAt_setAt, setAt_ite, hty, if_false,
          hrm, find_setAt_append_right, setAt_setAt_append, modifyAt_setAt_append, hCS,
          find_setAt_self, Option.getD_some]

theorem applyEnts_cons (e : Str × RegNode) (ents cs : List (Str × RegNode)) :
    applyEnts (e :: ents) cs = applyEnts ents (setChild e.1 e.2 (removeChild e.1 cs)) := rfl

theorem keysOf_append (a b : List (Str × RegNode)) :
    keysOf (a ++ b) = keysOf a ++ keysOf b := by
  simp [keysOf]

theorem keysOf_cons (e : Str × RegNode) (l : List (Str × RegNode)) :
    keysOf (e :: l) = e.1 :: keysOf l := by
  simp [keysOf]

theorem applyEnts_fresh :
    ∀ (ents done : List (Str × RegNode)), (keysOf ents).Nodup →
    (∀ k ∈ keysOf ents, k ∉ keysOf done) →
    applyEnts ents done = done ++ ents := by
  intro ents
  induction ents with
  | nil =>
    intro done _ _
    simp [applyEnts]
  | cons e rest ih =>
    intro done hnd hdisj
    obtain ⟨id, n⟩ := e
    rw [keysOf_cons] at hnd hdisj
    obtain ⟨hnd1, hnd2⟩ := List.nodup_cons.mp hnd
    have hid : id ∉ keysOf done := hdisj id (List.mem_cons_self id _)
    have h1 : removeChild id done = done :=
      removeChild_of_findChild_none id done ((findChild_eq_none_iff id done).mpr hid)
    have h2 : setChild id n done = done ++ [(id, n)] :=
      setChild_of_findChild_none id n done ((findChild_eq_none_iff id done).mpr hid)
    rw [applyEnts_cons]
    simp only [h1, h2]
    rw [ih (done ++ [(id, n)]) hnd2 ?_]
    · simp
    · intro k hk hmem
      rw [keysOf_append] at hmem
      rcases List.mem_append.mp hmem with h | h
      · exact hdisj k (List.mem_cons_of_mem _ hk) h
      · have hkid : k = id := by simpa [keysOf] using h
        exact hnd1 (hkid ▸ hk)

theorem applyEnts_cycle :
    ∀ (ents done : List (Str × RegNode)), (keysOf (ents ++ done)).Nodup →
    applyEnts ents (ents ++ done) = done ++ ents := by
  intro ents
  induction ents with
  | nil =>
    intro done _
    simp [applyEnts]
  | cons e rest ih =>
    intro done hnd
    obtain ⟨id, n⟩ := e
    rw [List.cons_append, keysOf_cons] at hnd
    obtain ⟨hid, hnd2⟩ := List.nodup_cons.mp hnd
    have h1 : removeChild id (((id, n) :: rest) ++ done) = rest ++ done := by
      rw [List.cons_append]
      simp only [removeChild, if_pos rfl]
      exact removeChild_of_findChild_none id _ ((findChild_eq_none_iff id _).mpr hid)
    have h2 : setChild id n (rest ++ done) = rest ++ (done ++ [(id, n)]) := by
      rw [setChild_of_findChild_none id n _ ((findChild_eq_none_iff id _).mpr hid),
        List.append_assoc]
    have hnd' : (keysOf (rest ++ (done ++ [(id, n)]))).Nodup := by
      have he : keysOf (rest ++ (done ++ [(id, n)]))
          = (keysOf rest ++ keysOf done) ++ [id] := by
        rw [keysOf_append, keysOf_append, ← List.append_assoc]
        simp [keysOf]
      rw [he]
      refine ((List.perm_append_singleton id _).nodup_iff).mpr ?_
      rw [keysOf_append] at hid hnd2
      exact List.nodup_cons.mpr ⟨hid, hnd2⟩
    rw [applyEnts_cons]
    simp only [h1, h2]
    rw [ih (done ++ [(id, n)]) hnd']
    simp

theorem graftEntry_eq {s B : RegNode} (id : Str) (n : RegNode)
    (h : s.find basePrefix = some B) :
    graftEntry id n s
      = s.setAt basePrefix (.mk B.vals (setChild id n (removeChild id B.children))) := by
  rw [graftEntry, removeAt_append_of_find (show ([id] : List Str) ≠ [] from by simp) h,
    setAt_setAt_append, removeAt_single]
  rw [setAt_cons_none [] n (by rw [RegNode.children_mk]; exact findChild_removeChild_self id B.children)]
  simp

theorem runPure_char :
    ∀ (gl : List (Str × (Except RegErr Unit × RegNode))) (s B : RegNode),
    s.find basePrefix = some B →
    runPure gl s = (statusOf gl,
      s.setAt basePrefix (.mk B.vals (applyEnts (takeRun gl) B.children))) := by
  intro gl
  induction gl with
  | nil =>
    intro s B h
    simp [runPure, statusOf, takeRun, applyEnts, RegNode.eta, setAt_find_self h]
  | cons e rest ih =>
    intro s B h
    obtain ⟨id, r, n⟩ := e
    have hg := graftEntry_eq id n h
    have hfind : (graftEntry id n s).find basePrefix
        = some (.mk B.vals (setChild id n (removeChild id B.children))) := by
      rw [hg]
      exact find_setAt_self _ _ _
    cases r with
    | error e' =>
      simp [runPure, statusOf, takeRun, applyEnts_cons, applyEnts, hg]
    | ok u =>
      rw [runPure, ih (graftEntry id n s) _ hfind, hg, setAt_setAt]
      simp [statusOf, takeRun, applyEnts_cons]

theorem takeRun_keys_sublist :
    ∀ (gl : List (Str × (Except RegErr Unit × RegNode))),
    ((takeRun gl).map Prod.fst).Sublist (gl.map Prod.fst) := by
  intro gl
  induction gl with
  | nil => simp [takeRun]
  | cons e rest ih =>
    obtain ⟨id, r, n⟩ := e
    cases r with
    | error e' =>
      simp only [takeRun, List.map_cons]
      exact List.cons_sublist_cons.mpr (List.nil_sublist _)
    | ok u =>
      simp only [takeRun, List.map_cons]
      exact List.cons_sublist_cons.mpr ih

theorem runPure_idem (gl : List (Str × (Except RegErr Unit × RegNode)))
    (hnd : (gl.map Prod.fst).Nodup) :
    runPure gl (runPure gl RegNode.empty).2 = runPure gl RegNode.empty := by
  cases gl with
  | nil => rfl
  | cons e rest =>
    obtain ⟨id, r, n⟩ := e
    rw [List.map_cons] at hnd
    obtain ⟨hid, hndr⟩ := List.nodup_cons.mp hnd
    have hfe_b : RegNode.empty.find basePrefix = none := by
      simp [basePrefix, RegNode.find, RegNode.empty, findChild]
    have hfe : RegNode.empty.find (basePrefix ++ [id]) = none := by
      simp [basePrefix, RegNode.find, RegNode.empty, findChild]
    have h0 : graftEntry id n RegNode.empty = RegNode.empty.setAt (basePrefix ++ [id]) n := by
      rw [graftEntry, removeAt_of_find_none hfe]
    have hfb : (RegNode.empty.setAt (basePrefix ++ [id]) n).find basePrefix
        = some (.mk [] [(id, n)]) := by
      rw [find_setAt_append basePrefix [id] RegNode.empty n, hfe_b]
      rfl
    have hsub := takeRun_keys_sublist rest
    have hndtr : ((takeRun rest).map Prod.fst).Nodup := hndr.sublist hsub
    have hidtr : id ∉ (takeRun rest).map Prod.fst := fun hmem => hid (hsub.subset hmem)
    cases r with
    | error e' =>
      have h2 : (RegNode.mk [] (setChild id n (removeChild id
          ((RegNode.mk [] [(id, n)]).children))) : RegNode) = .mk [] [(id, n)] := by
        simp [removeChild, setChild]
      have hSfix : graftEntry id n (RegNode.empty.setAt (basePrefix ++ [id]) n)
          = RegNode.empty.setAt (basePrefix ++ [id]) n := by
        rw [graftEntry_eq id n hfb]
        simp only [RegNode.vals_mk] at h2 ⊢
        rw [h2]
        exact setAt_find_self hfb
      simp only [runPure, h0, hSfix]
    | ok u =>
      have hCS : applyEnts (takeRun rest) [(id, n)] = (id, n) :: takeRun rest := by
        rw [applyEnts_fresh (takeRun rest) [(id, n)] hndtr ?_]
        · simp
        · intro k hk hmem
          simp [keysOf] at hmem
          subst hmem
          exact hidtr (by simpa [keysOf] using hk)
      have hchar1 := runPure_char rest (RegNode.empty.setAt (basePrefix ++ [id]) n) _ hfb
      rw [RegNode.vals_mk, RegNode.children_mk, hCS] at hchar1
      -- the state after the first full run
      have hfs : ((RegNode.empty.setAt (basePrefix ++ [id]) n).setAt basePrefix
            (.mk [] ((id, n) :: takeRun rest))).find basePrefix
          = some (.mk [] ((id, n) :: takeRun rest)) := find_setAt_self _ _ _
      have hrc : removeChild id ((id, n) :: takeRun rest) = takeRun rest := by
        rw [removeChild, if_pos rfl]
        exact removeChild_of_findChild_none id _
          ((findChild_eq_none_iff id _).mpr (by simpa [keysOf] using hidtr))
      have hsc : setChild id n (takeRun rest) = takeRun rest ++ [(id, n)] :=
        setChild_of_findChild_none id n _
          ((findChild_eq_none_iff id _).mpr (by simpa [keysOf] using hidtr))
      have hg2 := graftEntry_eq id n hfs
      rw [RegNode.vals_mk, RegNode.children_mk, hrc, hsc] at hg2
      have hcyc : applyEnts (takeRun rest) (takeRun rest ++ [(id, n)])
          = (id, n) :: takeRun rest := by
        rw [applyEnts_cycle (takeRun rest) [(id, n)] ?_]
        · simp
        · have he : keysOf (takeRun rest ++ [(id, n)])
              = ((takeRun rest).map Prod.fst) ++ [id] := by
            rw [keysOf_append]
            simp [keysOf]
          rw [he]
          refine ((List.perm_append_singleton id _).nodup_iff).mpr ?_
          exact List.nodup_cons.mpr ⟨hidtr, hndtr⟩
      have hfind2 : (graftEntry id n ((RegNode.empty.setAt (basePrefix ++ [id]) n).setAt
            basePrefix (.mk [] ((id, n) :: takeRun rest)))).find basePrefix
          = some (.mk [] (takeRun rest ++ [(id, n)])) := by
        rw [hg2, setAt_setAt]
        exact find_setAt_self _ _ _
      have hchar2 := runPure_char rest _ _ hfind2
      rw [RegNode.vals_mk, RegNode.children_mk, hcyc] at hchar2
      -- assemble
      simp only [runPure, h0, hchar1]
      rw [hchar2, hg2, setAt_setAt, setAt_setAt]

theorem installList_runPure (nircmd : Option Str) (dir : Str) :
    ∀ (l : List (Str × ContextMenu)), ∃ (gl : List (Str × (Except RegErr Unit × RegNode))),
      gl.map Prod.fst = l.map Prod.fst ∧
      ∀ s, installList [] [] nircmd dir l s = runPure gl s := by
  intro l
  induction l with
  | nil => exact ⟨[], rfl, fun s => rfl⟩
  | cons e rest ih =>
    obtain ⟨id, item⟩ := e
    obtain ⟨r, n, hc⟩ := createContextMenu_graft nircmd dir (sizeOf item) item le_rfl [] id
    obtain ⟨gl, hids, hgl⟩ := ih
    refine ⟨(id, (r, n)) :: gl, by simp [hids], fun s => ?_⟩
    have hc' : ∀ s : RegNode,
        createContextMenu [] [] nircmd dir [] id item s = (r, graftEntry id n s) := by
      intro s
      rw [hc s]
      simp [graftEntry]
    cases r with
    | error e' =>
      simp [installList, createContextMenuList, hc' s, runPure]
    | ok u =>
      have h2 := hgl (graftEntry id n s)
      simp only [installList] at h2 ⊢
      simp [createContextMenuList, hc' s, runPure, h2]

/-- C8: for every manifest tree (top-level identifiers unique, as Go map
keys are), running the installation loop twice in succession starting
from an empty namespace yields exactly the run of the first
installation: the second run returns the same status and leaves the
namespace in the same final state (each entry is erased and re-created
with identical content, and the creation-order cycling of sibling keys
returns the children list to its original order). -/
theorem C8_install_idempotent (nircmd : Option Str) (dir : Str)
    (l : List (Str × ContextMenu)) (hnd : (l.map Prod.fst).Nodup)
    (R : Except RegErr Unit) (s₁ : RegNode)
    (h : installList [] [] nircmd dir l RegNode.empty = (R, s₁)) :
    installList [] [] nircmd dir l s₁ = (R, s₁) := by
  obtain ⟨gl, hids, hgl⟩ := installList_runPure nircmd dir l
  have hnd' : (gl.map Prod.fst).Nodup := by
    rw [hids]
    exact hnd
  have h1 := hgl RegNode.empty
  rw [h] at h1
  have h2 := runPure_idem gl hnd'
  rw [← h1] at h2
  rw [hgl s₁]
  simpa using h2

/-- C9: the installation loop is fail-fast with no rollback: if the
entries split as `es1 ++ (id, item) :: es2` where processing `es1`
succeeds (leaving state `s1`) and processing `(id, item)` fails with
error `e` (leaving state `s2`), then the whole run aborts immediately
with `e` wrapped in the entry identifier, the namespace is left exactly
as the failing entry left it (everything installed for `es1` persists,
untouched by any rollback), and the entries `es2` after the failure are
never attempted (the result does not depend on `es2` at all). -/
theorem C9_install_failfast (lo ld : List (List Str)) (nircmd : Option Str) (dir : Str)
    (es1 : List (Str × ContextMenu)) (id : Str) (item : ContextMenu)
    (es2 : List (Str × ContextMenu)) (s s1 s2 : RegNode) (e : RegErr)
    (h1 : installList lo ld nircmd dir es1 s = (.ok (), s1))
    (h2 : createContextMenu lo ld nircmd dir [] id item s1 = (.error e, s2)) :
    installList lo ld nircmd dir (es1 ++ (id, item) :: es2) s = (.error (.ctx [id] e), s2) := by
  induction es1 generalizing s with
  | nil =>
    simp only [installList, createContextMenuList] at h1
    simp only [Prod.mk.injEq, true_and] at h1
    subst h1
    simp [installList, createContextMenuList, h2]
  | cons e1 rest ih =>
    obtain ⟨id1, item1⟩ := e1
    simp only [installList, createContextMenuList] at h1 ⊢
    cases hcc : createContextMenu lo ld nircmd dir [] id1 item1 s with
    | mk r1 s' =>
      rw [hcc] at h1
      cases r1 with
      | error e1' => simp at h1
      | ok u =>
        simp only at h1
        have := ih s' h1
        simp only [installList] at this
        simp [this]

theorem foldl_append_map {α β : Type} (f : α → β) :
    ∀ (l : List α) (acc : List β),
    l.foldl (fun acc x => acc ++ [f x]) acc = acc ++ l.map f := by
  intro l
  induction l with
  | nil => intro acc; simp
  | cons x xs ih =>
    intro acc
    simp [List.foldl, ih]

theorem intercalate_cons_cons (sep a b : Str) (l : List Str) :
    List.intercalate sep (a :: b :: l) = a ++ sep ++ List.intercalate sep (b :: l) := by
  simp [List.intercalate, List.intersperse, List.append_assoc]

theorem containsAny_space_percent (p : Str) :
    containsAny p (str " %") = true ↔ (' ' ∈ p ∨ '%' ∈ p) := by
  simp only [containsAny, List.any_eq_true]
  constructor
  · rintro ⟨c, hc, hmem⟩
    by_cases hsp : c = ' '
    · exact Or.inl (hsp ▸ hc)
    · by_cases hpc : c = '%'
      · exact Or.inr (hpc ▸ hc)
      · exfalso
        have h1 : (c == ' ') = false := beq_eq_false_iff_ne.mpr hsp
        have h2 : (c == '%') = false := beq_eq_false_iff_ne.mpr hpc
        simp [str, List.contains, List.elem, h1, h2] at hmem
  · rintro (h | h)
    · exact ⟨' ', h, by decide⟩
    · exact ⟨'%', h, by decide⟩

/-- C1 (counterexample): the spec's command-projection example claims
`CommandString` yields `explorer.exe "C:\menu\tools\run.bat"` for
`admin=false`, `command=["explorer.exe", "${manifestFolder}\tools\run.bat"]`,
`baseDir="C:\menu"`; the code does not quote the second token, because
after substitution it contains neither a space nor a percent sign. -/
theorem C1_counterexample :
    (ContextMenu.mk (str "item") [] [] none false false
        [str "explorer.exe", str "${manifestFolder}\\tools\\run.bat"] []).CommandString
      (str "C:\\menu") none
      ≠ .ok (str "explorer.exe \"C:\\menu\\tools\\run.bat\"") := by
  decide

/-- C1 (amended): for that input the command projection returns exactly
`explorer.exe C:\menu\tools\run.bat` — the second token is substituted
but left bare, like the first, since it contains no space and no percent
character. -/
theorem C1_amended :
    (ContextMenu.mk (str "item") [] [] none false false
        [str "explorer.exe", str "${manifestFolder}\\tools\\run.bat"] []).CommandString
      (str "C:\\menu") none
      = .ok (str "explorer.exe C:\\menu\\tools\\run.bat") := rfl

/-- C2: if a node has `admin` set and the elevation helper cannot be
located (`findNircmd` yields nothing, modelled as `nircmd = none`), the
command projection produces the helper-not-found error instead of any
command string — the Go code reacts with `log.Fatal`, modelled as this
error outcome — and for a non-folder node the error surfaces as the
result of `createContextMenu`, aborting the installation chain, rather
than a silently non-elevated command being written. -/
theorem C2_helper_missing :
    (∀ (ty title ip : Str) (ii : Option Int) (ext : Bool) (cmd : List Str)
      (items : List (Str × ContextMenu)) (dir : Str),
      (ContextMenu.mk ty title ip ii ext true cmd items).CommandString dir none
        = .error RegErr.helperNotFound)
    ∧ (∀ (ty title ip : Str) (ii : Option Int) (ext : Bool) (cmd : List Str)
      (items : List (Str × ContextMenu)) (dir : Str) (parent : List Str) (id : Str)
      (s : RegNode), ty ≠ ContextMenuType_Folder →
      (createContextMenu [] [] none dir parent id
          (.mk ty title ip ii ext true cmd items) s).1
        = .error RegErr.helperNotFound) := by
  have hCSe : ∀ (ty title ip : Str) (ii : Option Int) (ext : Bool) (cmd : List Str)
      (items : List (Str × ContextMenu)) (dir : Str),
      (ContextMenu.mk ty title ip ii ext true cmd items).CommandString dir none
        = .error RegErr.helperNotFound := by
    intro ty title ip ii ext cmd items dir
    simp [ContextMenu.CommandString, ContextMenu.admin]
  refine ⟨hCSe, ?_⟩
  intro ty title ip ii ext cmd items dir parent id s hty
  have hkp : basePrefix ++ parent ++ [id] ≠ [] := by simp
  have hrm := fun (s t : RegNode) =>
    removeAt_setAt_append (basePrefix ++ parent ++ [id])
      (show ([str "command"] : List Str) ≠ [] from by simp) s t
  simp only [createContextMenu, deleteRegKeyRecursive_nil, List.nil_append,
    createKey_nil, find_removeAt_self hkp, modifyAt_setAt, setAt_ite, hty, if_false,
    hrm, find_setAt_append_right, setAt_setAt_append, modifyAt_setAt_append,
    hCSe ty title ip ii ext cmd items dir]

/-- C3: with `admin=false` the command projection substitutes the
`${manifestFolder}` placeholder in each token, quotes a token exactly
when the substituted token contains a space or a percent character, and
joins the tokens with single spaces. -/
theorem C3_command_projection (ty title ip : Str) (ii : Option Int) (ext : Bool)
    (cmd : List Str) (items : List (Str × ContextMenu)) (dir : Str) (nircmd : Option Str) :
    (ContextMenu.mk ty title ip ii ext false cmd items).CommandString dir nircmd
      = .ok (List.intercalate (str " ") (cmd.map (fun part =>
          let p := replaceAll part (str "${manifestFolder}") dir
          if ' ' ∈ p ∨ '%' ∈ p then quoteWindowsPath p else p))) := by
  simp only [ContextMenu.CommandString, ContextMenu.admin, ContextMenu.command,
    Bool.false_eq_true, if_false, foldl_append_map, List.nil_append,
    containsAny_space_percent]

/-- C4: the icon projection returns the empty string whenever `iconPath`
is empty, regardless of the icon index; otherwise it substitutes the
base directory for `${manifestFolder}`, wraps the result in double
quotes unconditionally, and appends `,<index>` exactly when an icon
index is present.  In particular
`iconPath="${manifestFolder}\icons\app.dll"`, `iconIndex=2`,
`baseDir="C:\menu"` yields `"C:\menu\icons\app.dll",2` (quotes
included). -/
theorem C4_icon_projection :
    (∀ (ty title : Str) (ii : Option Int) (ext adm : Bool) (cmd : List Str)
      (items : List (Str × ContextMenu)) (dir : Str),
      (ContextMenu.mk ty title [] ii ext adm cmd items).Icon dir = [])
    ∧ (∀ (ty title ip : Str) (ii : Option Int) (ext adm : Bool) (cmd : List Str)
      (items : List (Str × ContextMenu)) (dir : Str), ip ≠ [] →
      (ContextMenu.mk ty title ip ii ext adm cmd items).Icon dir
        = quoteWindowsPath (replaceAll ip (str "${manifestFolder}") dir)
          ++ (match ii with
              | some i => str "," ++ (toString i).data
              | none => []))
    ∧ ((ContextMenu.mk (str "item") [] (str "${manifestFolder}\\icons\\app.dll") (some 2)
        false false [] []).Icon (str "C:\\menu") = str "\"C:\\menu\\icons\\app.dll\",2") := by
  refine ⟨?_, ?_, rfl⟩
  · intro ty title ii ext adm cmd items dir
    simp [ContextMenu.Icon, ContextMenu.iconPath]
  · intro ty title ip ii ext adm cmd items dir hip
    cases ii with
    | some i =>
      simp [ContextMenu.Icon, ContextMenu.iconPath, ContextMenu.iconIndex, hip,
        List.append_assoc]
    | none =>
      simp [ContextMenu.Icon, ContextMenu.iconPath, ContextMenu.iconIndex, hip]

/-- C5: with `admin=true` and a locatable helper at `H`, the projected
command string begins with the double-quoted helper path, a space, and
the token `elevate`, before any of the node's own command tokens; when
the node has command tokens, the `elevate` token is followed by a
space and then the projected tokens. -/
theorem C5_admin_elevate (ty title ip : Str) (ii : Option Int) (ext : Bool)
    (cmd : List Str) (items : List (Str × ContextMenu)) (dir H : Str) :
    (∃ rest, (ContextMenu.mk ty title ip ii ext true cmd items).CommandString dir (some H)
        = .ok ((quoteWindowsPath H ++ str " elevate") ++ rest))
    ∧ (cmd ≠ [] → ∃ rest,
        (ContextMenu.mk ty title ip ii ext true cmd items).CommandString dir (some H)
          = .ok ((quoteWindowsPath H ++ str " elevate ") ++ rest)) := by
  have hunf : (ContextMenu.mk ty title ip ii ext true cmd items).CommandString dir (some H)
      = .ok (List.intercalate (str " ")
          ([quoteWindowsPath H, str "elevate"] ++ cmd.map (fun part =>
            let p := replaceAll part (str "${manifestFolder}") dir
            if containsAny p (str " %") then quoteWindowsPath p else p))) := by
    simp only [ContextMenu.CommandString, ContextMenu.admin, ContextMenu.command,
      if_true, foldl_append_map]
  rw [hunf]
  cases hm : cmd.map (fun part =>
      let p := replaceAll part (str "${manifestFolder}") dir
      if containsAny p (str " %") then quoteWindowsPath p else p) with
  | nil =>
    constructor
    · refine ⟨[], ?_⟩
      rw [List.cons_append, List.cons_append, List.nil_append,
        intercalate_cons_cons]
      simp [List.intercalate, List.append_assoc]
      rfl
    · intro hcmd
      exact absurd hm (by simpa using hcmd)
  | cons m ms =>
    have hshape : List.intercalate (str " ")
        ([quoteWindowsPath H, str "elevate"] ++ m :: ms)
        = (quoteWindowsPath H ++ str " elevate ")
          ++ List.intercalate (str " ") (m :: ms) := by
      rw [List.cons_append, List.cons_append, List.nil_append,
        intercalate_cons_cons, intercalate_cons_cons]
      simp [List.append_assoc]
      rfl
    constructor
    · refine ⟨str " " ++ List.intercalate (str " ") (m :: ms), ?_⟩
      rw [hshape]
      simp [List.append_assoc]
      rfl
    · intro _
      exact ⟨List.intercalate (str " ") (m :: ms), by rw [hshape]⟩

/-- C6: the recursive subtree eraser works post-order.  With no adapter
failures its delete calls are exactly the post-order enumeration of the
subtree (every descendant deleted before its ancestor, the erased path
itself last), and it removes exactly the subtree.  Under injected
adapter failures (`lo`/`ld`), the delete calls it issues are always a
prefix of that post-order enumeration (so once a child fails, remaining
siblings and the parent are aborted), and any failure is propagated
wrapped with a path. -/
theorem C6_erase_postorder (lo ld : List (List Str)) (k p : List Str) (s : RegNode) :
    (deleteRegKeyRecursive [] [] k p s
      = (.ok (), s.removeAt (k ++ p), (s.find (k ++ p)).elim [] (postOrder (k ++ p))))
    ∧ (∃ rest, (s.find (k ++ p)).elim [] (postOrder (k ++ p))
        = (deleteRegKeyRecursive lo ld k p s).2.2 ++ rest)
    ∧ (∀ e s' tr, deleteRegKeyRecursive lo ld k p s = (.error e, s', tr) →
        ∃ p' e', e = RegErr.ctx p' e') := by
  refine ⟨deleteRegKeyRecursive_nil k p s, ?_, ?_⟩
  · cases hf : s.find (k ++ p) with
    | none => exact ⟨[], by simp [deleteRegKeyRecursive, hf]⟩
    | some n =>
      by_cases hlo : (k ++ p) ∈ lo
      · exact ⟨postOrder (k ++ p) n, by simp [deleteRegKeyRecursive, hf, hlo]⟩
      · obtain ⟨⟨rest, hpre⟩, herr, hok⟩ := eraseNode_trace lo ld (k ++ p) n
        cases he : eraseNode lo ld (k ++ p) n with
        | mk r rest' =>
          obtain ⟨n', tr⟩ := rest'
          cases r with
          | ok u =>
            have htr := hok u n' tr he
            exact ⟨[], by simp [deleteRegKeyRecursive, hf, hlo, he, htr]⟩
          | error e =>
            rw [he] at hpre
            refine ⟨rest, ?_⟩
            cases n' with
            | some nn => simpa [deleteRegKeyRecursive, hf, hlo, he] using hpre
            | none => simpa [deleteRegKeyRecursive, hf, hlo, he] using hpre
  · intro e s' tr h
    cases hf : s.find (k ++ p) with
    | none => simp [deleteRegKeyRecursive, hf] at h
    | some n =>
      by_cases hlo : (k ++ p) ∈ lo
      · simp [deleteRegKeyRecursive, hf, hlo] at h
        exact ⟨k ++ p, .accessDenied, h.1.symm⟩
      · obtain ⟨hpre, herr, hok⟩ := eraseNode_trace lo ld (k ++ p) n
        cases he : eraseNode lo ld (k ++ p) n with
        | mk r rest' =>
          obtain ⟨n', tr'⟩ := rest'
          cases r with
          | ok u => simp [deleteRegKeyRecursive, hf, hlo, he] at h
          | error e' =>
            obtain ⟨⟨p', e'', hw⟩, -⟩ := herr e' n' tr' he
            cases n' with
            | some nn =>
              simp [deleteRegKeyRecursive, hf, hlo, he] at h
              exact ⟨p', e'', h.1 ▸ hw⟩
            | none =>
              simp [deleteRegKeyRecursive, hf, hlo, he] at h
              exact ⟨p', e'', h.1 ▸ hw⟩

/-- C7: erasing a path that does not exist succeeds with no namespace
change and no delete issued ("not found" at the initial open is
tolerated), and a "not found" outcome of the final `DeleteKey` of the
path itself (the key no longer present at delete time) is likewise
mapped to success. -/
theorem C7_notfound_tolerated :
    (∀ (lo ld : List (List Str)) (k p : List Str) (s : RegNode),
      s.find (k ++ p) = none → deleteRegKeyRecursive lo ld k p s = (.ok (), s, []))
    ∧ (∀ (ld : List (List Str)) (abs : List Str),
      deleteKeyAttempt ld abs false = (.ok (), false)) := by
  refine ⟨?_, ?_⟩
  · intro lo ld k p s h
    simp [deleteRegKeyRecursive, h]
  · intro ld abs
    simp [deleteKeyAttempt]

/-- C10: a node whose `type` is anything other than `folder` — even with
a non-empty `items` map — is treated as an Item: the result does not
depend on `items` at all (no recursion into children), a `command`
subkey is created under the node's key holding the projected command
string as its expandable default value, no `SubCommands` value is set
on the node, and no `shell` children-container key is created. -/
theorem C10_nonfolder_item (nircmd : Option Str) (dir : Str) (parent : List Str) (id : Str)
    (ty title ip : Str) (ii : Option Int) (ext adm : Bool) (cmd : List Str)
    (items : List (Str × ContextMenu)) (s : RegNode)
    (hty : ty ≠ ContextMenuType_Folder) (cmdStr : Str)
    (hCS : (ContextMenu.mk ty title ip ii ext adm cmd items).CommandString dir nircmd
      = .ok cmdStr) :
    createContextMenu [] [] nircmd dir parent id (.mk ty title ip ii ext adm cmd items) s
      = createContextMenu [] [] nircmd dir parent id (.mk ty title ip ii ext adm cmd []) s
    ∧ ((createContextMenu [] [] nircmd dir parent id
          (.mk ty title ip ii ext adm cmd items) s).2.find
        ((basePrefix ++ parent ++ [id]) ++ [str "command"])
      = some (.mk [(str "", .rexpand cmdStr)] []))
    ∧ ((createContextMenu [] [] nircmd dir parent id
          (.mk ty title ip ii ext adm cmd items) s).2.find
        ((basePrefix ++ parent ++ [id]) ++ [str "shell"]) = none)
    ∧ (∃ node, (createContextMenu [] [] nircmd dir parent id
          (.mk ty title ip ii ext adm cmd items) s).2.find (basePrefix ++ parent ++ [id])
        = some node ∧ getVal (str "SubCommands") node.vals = none) := by
  have hCS0 : (ContextMenu.mk ty title ip ii ext adm cmd []).CommandString dir nircmd
      = .ok cmdStr := hCS
  have hIc0 : (ContextMenu.mk ty title ip ii ext adm cmd []).Icon dir
      = (ContextMenu.mk ty title ip ii ext adm cmd items).Icon dir := rfl
  have hkp : basePrefix ++ parent ++ [id] ≠ [] := by simp
  have hrm := fun (s t : RegNode) =>
    removeAt_setAt_append (basePrefix ++ parent ++ [id])
      (show ([str "command"] : List Str) ≠ [] from by simp) s t
  have hne1 : str "MUIVerb" ≠ str "SubCommands" := by decide
  have hne2 : str "Icon" ≠ str "SubCommands" := by decide
  have hne3 : str "Extended" ≠ str "SubCommands" := by decide
  have hne4 : str "HasLUAShield" ≠ str "SubCommands" := by decide
  have hne5 : str "command" ≠ str "shell" := by decide
  by_cases hicon : (ContextMenu.mk ty title ip ii ext adm cmd items).Icon dir = [] <;>
    cases ext <;> cases adm
  all_goals refine ⟨?_, ?_, ?_, ?_⟩
  all_goals simp only [createContextMenu, deleteRegKeyRecursive_nil, List.nil_append,
    createKey_nil, find_removeAt_self hkp, modifyAt_setAt, setAt_ite, hty, if_false,
    hrm, find_setAt_append_right, setAt_setAt_append, modifyAt_setAt_append,
    hCS, hCS0, hIc0, hicon, if_true, find_setAt_self]
  all_goals first
    | rfl
    | (refine ⟨_, rfl, ?_⟩
       simp [getVal, putVal, hne1, hne2, hne3, hne4])

set_option maxHeartbeats 2000000

/-- Witness for C2 at a concrete admin item node with no locatable helper. -/
theorem C2_helper_missing_witness :
    (ContextMenu.mk (str "item") [] [] none false true [str "x"] []).CommandString
        (str "D") none = .error RegErr.helperNotFound
    ∧ (createContextMenu [] [] none (str "D") [] (str "a")
        (.mk (str "item") [] [] none false true [str "x"] []) RegNode.empty).1
      = .error RegErr.helperNotFound :=
  ⟨C2_helper_missing.1 (str "item") [] [] none false [str "x"] [] (str "D"),
   C2_helper_missing.2 (str "item") [] [] none false [str "x"] [] (str "D") [] (str "a")
     RegNode.empty (by decide)⟩

/-- Witness for C4 at a concrete empty icon path and a concrete configured icon. -/
theorem C4_icon_projection_witness :
    ((ContextMenu.mk [] [] [] (some 5) true true [] []).Icon (str "D") = [])
    ∧ ((ContextMenu.mk [] [] (str "p q") (some 1) false false [] []).Icon (str "D")
      = quoteWindowsPath (replaceAll (str "p q") (str "${manifestFolder}") (str "D"))
        ++ (str "," ++ (toString (1 : Int)).data)) :=
  ⟨C4_icon_projection.1 [] [] (some 5) true true [] [] (str "D"),
   C4_icon_projection.2.1 [] [] (str "p q") (some 1) false false [] [] (str "D") (by decide)⟩

/-- Witness for C5 at a concrete admin node with one command token. -/
theorem C5_admin_elevate_witness :
    ∃ rest, (ContextMenu.mk (str "t") [] [] none false true [str "x"] []).CommandString
        (str "D") (some (str "H"))
      = .ok ((quoteWindowsPath (str "H") ++ str " elevate ") ++ rest) :=
  (C5_admin_elevate (str "t") [] [] none false [str "x"] [] (str "D") (str "H")).2 (by decide)

/-- Witness for C6: a successful erase of a one-child tree, and a
wrapped error when the delete of the key itself is locked. -/
theorem C6_erase_postorder_witness :
    (deleteRegKeyRecursive [] [] [] [str "a"] (.mk [] [(str "a", .mk [] [])])
      = (.ok (), .mk [] [], [[str "a"]]))
    ∧ (∃ p' e', RegErr.ctx [str "a"] RegErr.accessDenied = RegErr.ctx p' e') :=
  ⟨(C6_erase_postorder [] [] [] [str "a"] (.mk [] [(str "a", .mk [] [])])).1,
   (C6_erase_postorder [] [[str "a"]] [] [str "a"] (.mk [] [(str "a", .mk [] [])])).2.2
     (.ctx [str "a"] RegErr.accessDenied) (.mk [] [(str "a", .mk [] [])]) [[str "a"]] rfl⟩

/-- Witness for C7: erasing a missing path is a success with no change,
and the final-delete not-found tolerance at a concrete path. -/
theorem C7_notfound_tolerated_witness :
    (deleteRegKeyRecursive [] [] [] [str "a"] RegNode.empty = (.ok (), RegNode.empty, []))
    ∧ (deleteKeyAttempt [] [str "a"] false = (.ok (), false)) :=
  ⟨C7_notfound_tolerated.1 [] [] [] [str "a"] RegNode.empty rfl,
   C7_notfound_tolerated.2 [] [str "a"]⟩

/-- Witness for C8: a concrete manifest with a folder (holding one item)
and a sibling item, installed twice from the empty namespace. -/
theorem C8_install_idempotent_witness :
    installList [] [] none (str "D")
        [(str "f", .mk (str "folder") [] [] none false false []
            [(str "a", .mk (str "item") [] [] none false false [str "x"] [])]),
         (str "c", .mk (str "item") [] [] none false false [str "x"] [])]
        (installList [] [] none (str "D")
          [(str "f", .mk (str "folder") [] [] none false false []
              [(str "a", .mk (str "item") [] [] none false false [str "x"] [])]),
           (str "c", .mk (str "item") [] [] none false false [str "x"] [])]
          RegNode.empty).2
      = installList [] [] none (str "D")
          [(str "f", .mk (str "folder") [] [] none false false []
              [(str "a", .mk (str "item") [] [] none false false [str "x"] [])]),
           (str "c", .mk (str "item") [] [] none false false [str "x"] [])]
          RegNode.empty :=
  C8_install_idempotent none (str "D")
    [(str "f", .mk (str "folder") [] [] none false false []
        [(str "a", .mk (str "item") [] [] none false false [str "x"] [])]),
     (str "c", .mk (str "item") [] [] none false false [str "x"] [])]
    (by decide)
    (installList [] [] none (str "D")
      [(str "f", .mk (str "folder") [] [] none false false []
          [(str "a", .mk (str "item") [] [] none false false [str "x"] [])]),
       (str "c", .mk (str "item") [] [] none false false [str "x"] [])]
      RegNode.empty).1
    (installList [] [] none (str "D")
      [(str "f", .mk (str "folder") [] [] none false false []
          [(str "a", .mk (str "item") [] [] none false false [str "x"] [])]),
       (str "c", .mk (str "item") [] [] none false false [str "x"] [])]
      RegNode.empty).2
    rfl

/-- Witness for C9: five top-level entries, the third of which fails
(admin set, helper unlocatable): the run aborts with the wrapped error,
the first two entries survive in the final namespace, and the last two
are never created. -/
theorem C9_install_failfast_witness :
    (installList [] [] none (str "D")
        ([(str "a", .mk (str "item") [] [] none false false [str "x"] []),
          (str "b", .mk (str "item") [] [] none false false [str "x"] [])]
          ++ (str "c", .mk (str "item") [] [] none false true [] [])
          :: [(str "d", .mk (str "item") [] [] none false false [str "x"] []),
              (str "e", .mk (str "item") [] [] none false false [str "x"] [])])
        RegNode.empty
      = (.error (.ctx [str "c"] RegErr.helperNotFound),
        (createContextMenu [] [] none (str "D") [] (str "c")
          (.mk (str "item") [] [] none false true [] [])
          (installList [] [] none (str "D")
            [(str "a", .mk (str "item") [] [] none false false [str "x"] []),
             (str "b", .mk (str "item") [] [] none false false [str "x"] [])]
            RegNode.empty).2).2))
    ∧ (((createContextMenu [] [] none (str "D") [] (str "c")
          (.mk (str "item") [] [] none false true [] [])
          (installList [] [] none (str "D")
            [(str "a", .mk (str "item") [] [] none false false [str "x"] []),
             (str "b", .mk (str "item") [] [] none false false [str "x"] [])]
            RegNode.empty).2).2.find (basePrefix ++ [str "a"])).isSome = true)
    ∧ (((createContextMenu [] [] none (str "D") [] (str "c")
          (.mk (str "item") [] [] none false true [] [])
          (installList [] [] none (str "D")
            [(str "a", .mk (str "item") [] [] none false false [str "x"] []),
             (str "b", .mk (str "item") [] [] none false false [str "x"] [])]
            RegNode.empty).2).2.find (basePrefix ++ [str "b"])).isSome = true)
    ∧ ((createContextMenu [] [] none (str "D") [] (str "c")
          (.mk (str "item") [] [] none false true [] [])
          (installList [] [] none (str "D")
            [(str "a", .mk (str "item") [] [] none false false [str "x"] []),
             (str "b", .mk (str "item") [] [] none false false [str "x"] [])]
            RegNode.empty).2).2.find (basePrefix ++ [str "d"]) = none)
    ∧ ((createContextMenu [] [] none (str "D") [] (str "c")
          (.mk (str "item") [] [] none false true [] [])
          (installList [] [] none (str "D")
            [(str "a", .mk (str "item") [] [] none false false [str "x"] []),
             (str "b", .mk (str "item") [] [] none false false [str "x"] [])]
            RegNode.empty).2).2.find (basePrefix ++ [str "e"]) = none) :=
  ⟨C9_install_failfast [] [] none (str "D")
    [(str "a", .mk (str "item") [] [] none false false [str "x"] []),
     (str "b", .mk (str "item") [] [] none false false [str "x"] [])]
    (str "c") (.mk (str "item") [] [] none false true [] [])
    [(str "d", .mk (str "item") [] [] none false false [str "x"] []),
     (str "e", .mk (str "item") [] [] none false false [str "x"] [])]
    RegNode.empty
    (installList [] [] none (str "D")
      [(str "a", .mk (str "item") [] [] none false false [str "x"] []),
       (str "b", .mk (str "item") [] [] none false false [str "x"] [])]
      RegNode.empty).2
    (createContextMenu [] [] none (str "D") [] (str "c")
      (.mk (str "item") [] [] none false true [] [])
      (installList [] [] none (str "D")
        [(str "a", .mk (str "item") [] [] none false false [str "x"] []),
         (str "b", .mk (str "item") [] [] none false false [str "x"] [])]
        RegNode.empty).2).2
    RegErr.helperNotFound rfl rfl,
   by exact rfl, by exact rfl, by exact rfl, by exact rfl⟩

/-- Witness for C10: a node of unrecognized type `weird` with a
non-empty `items` map is installed exactly as the same node with no
children: a `command` subkey with the projected default value, no
`SubCommands` value, no `shell` key. -/
theorem C10_nonfolder_item_witness :
    createContextMenu [] [] none (str "D") [] (str "a")
        (.mk (str "weird") [] [] none false false [str "y"]
          [(str "k", .mk (str "item") [] [] none false false [] [])]) RegNode.empty
      = createContextMenu [] [] none (str "D") [] (str "a")
        (.mk (str "weird") [] [] none false false [str "y"] []) RegNode.empty
    ∧ ((createContextMenu [] [] none (str "D") [] (str "a")
          (.mk (str "weird") [] [] none false false [str "y"]
            [(str "k", .mk (str "item") [] [] none false false [] [])]) RegNode.empty).2.find
        ((basePrefix ++ [] ++ [str "a"]) ++ [str "command"])
      = some (.mk [(str "", .rexpand (str "y"))] []))
    ∧ ((createContextMenu [] [] none (str "D") [] (str "a")
          (.mk (str "weird") [] [] none false false [str "y"]
            [(str "k", .mk (str "item") [] [] none false false [] [])]) RegNode.empty).2.find
        ((basePrefix ++ [] ++ [str "a"]) ++ [str "shell"]) = none)
    ∧ (∃ node, (createContextMenu [] [] none (str "D") [] (str "a")
          (.mk (str "weird") [] [] none false false [str "y"]
            [(str "k", .mk (str "item") [] [] none false false [] [])]) RegNode.empty).2.find
        (basePrefix ++ [] ++ [str "a"])
        = some node ∧ getVal (str "SubCommands") node.vals = none) :=
  C10_nonfolder_item none (str "D") [] (str "a") (str "weird") [] [] none false false
    [str "y"] [(str "k", .mk (str "item") [] [] none false false [] [])] RegNode.empty
    (by decide) (str "y") rfl
